import Mathlib

/-!
# Frequency counter / LC meter (`counter.c`): embedding and properties

The firmware of `counter.c` is embedded as pure functions on an explicit
`State` record holding the C globals and the hardware registers the program
touches.  Machine integers are natural numbers or integers with explicit
reduction at the width of the C type on the target (16-bit `int`, 32-bit
`long`).  The C type `PRECISION` (`double`) is embedded as an arbitrary
linear ordered field `K`.  The frequency and LC derivations use the exact
operations of `K`; the moving average takes the addition, division and `round`
of `double` as parameters, so that what is proved of it holds for the
arithmetic of the target as well as for exact arithmetic.
-/

namespace FrequencyCounter

/-! ## Prescaler table -/

/-- One row of `divider_ctrl`: the `struct _prescaler` of the source. -/
structure Prescaler where
  mask : Nat
  shift : Nat
  deriving DecidableEq, Repr

/-- The table `divider_ctrl[8]`. -/
def divider_ctrl : List Prescaler :=
  [⟨0x0, 1⟩, ⟨0x1, 2⟩, ⟨0x4, 3⟩, ⟨0x2, 4⟩, ⟨0x3, 7⟩, ⟨0x5, 8⟩, ⟨0x6, 9⟩, ⟨0x7, 10⟩]

/-- The array read `divider_ctrl[i]`.  The program only indexes the table
with 0..7; the default row stands for a read outside the table. -/
def dividerCtrlAt (i : Nat) : Prescaler :=
  divider_ctrl.getD i ⟨0, 0⟩

/-! ## Program state -/

/-- The globals of `counter.c` and the hardware registers it reads and writes. -/
structure State (K : Type) where
  /-- Global `uint8_t divider_id` -/
  divider_id : Nat
  /-- Global `DIVIDER_PORT`, the 8-bit register `PORTB` -/
  PORTB : Nat
  /-- Global `volatile uint8_t measuring` -/
  measuring : Nat
  /-- Global `PRECISION last_frequency[4]`, as a map from index to slot value -/
  last_frequency : Nat → K
  /-- Global `uint8_t last_frequency_counter` -/
  last_frequency_counter : Nat
  /-- Global `PRECISION frequency` -/
  frequency : K
  /-- Global `PRECISION inductor` -/
  inductor : K
  /-- Global `uint8_t calibrationMode` -/
  calibrationMode : Nat
  /-- Global `volatile uint16_t timer1E` -/
  timer1E : Nat
  /-- Global `volatile uint16_t timer0E` -/
  timer0E : Nat
  /-- Global `uint16_t timer0E_start` -/
  timer0E_start : Nat
  /-- Global `volatile uint16_t timer1L` -/
  timer1L : Nat
  /-- Global `volatile uint16_t timer1H` -/
  timer1H : Nat
  /-- Hardware register `TCNT1` (16 bit) -/
  TCNT1 : Nat
  /-- Hardware register `TCNT0` (8 bit) -/
  TCNT0 : Nat
  /-- Hardware register `TCCR1B` -/
  TCCR1B : Nat
  /-- Hardware register `TCCR0B` -/
  TCCR0B : Nat

variable {K : Type}

/-- The macro `DIVIDER_MASK` is `(~0x7)`; and-ed into the 8-bit port it keeps
bits 3..7, i.e. it acts as `0xF8`. -/
def DIVIDER_MASK : Nat := 0xF8

/-- The function `setDivider(uint8_t divider)`. -/
def setDivider (s : State K) (divider : Nat) : State K :=
  let s1 := { s with divider_id := divider }
  let s2 := { s1 with PORTB := s1.PORTB &&& DIVIDER_MASK }
  { s2 with PORTB := s2.PORTB ||| (dividerCtrlAt s2.divider_id).mask }

/-- The `if`/`else if` chain of `main` after the rough window (lines 303-306). -/
def selectPrescaler (s : State K) : State K :=
  if s.timer1H = 0 ∧ s.timer1L < 15625 then setDivider s 0
  else if s.timer1H = 0 ∧ s.timer1L < 37000 then setDivider s 1
  else if s.timer1H ≤ 1 ∧ s.timer1L < 10635 then setDivider s 2
  else if s.timer1H ≤ 2 ∧ s.timer1L < 22000 then setDivider s 3
  else s

/-- The selector id the auto-ranging of `main` ends with when the rough window
(run with `setDivider(4)` active) left the snapshot `(h, l)` in
`(timer1H, timer1L)`. -/
def autoRange (s : State K) (h l : Nat) : Nat :=
  (selectPrescaler { setDivider s 4 with timer1H := h, timer1L := l }).divider_id

/-! ## Measurement window -/

/-- Value written to `TCCR1B` by `startMeasurement`:
`_BV(CS10) | _BV(CS11) | _BV(CS12)` with `CS10 = 0`, `CS11 = 1`, `CS12 = 2`
(external clock on T1, rising edge). -/
def TCCR1B_RUN : Nat := (1 <<< 0) ||| (1 <<< 1) ||| (1 <<< 2)

/-- Value written to `TCCR0B` by `startMeasurement`: `_BV(CS02)` with
`CS02 = 2` (prescaler 256). -/
def TCCR0B_RUN : Nat := 1 <<< 2

/-- The function `startMeasurement(uint8_t time_shift)`. -/
def startMeasurement (s : State K) (time_shift : Nat) : State K :=
  { s with
    timer0E := s.timer0E_start >>> time_shift
    timer1E := 0
    TCNT1 := 0
    TCNT0 := 0
    measuring := 1
    TCCR1B := TCCR1B_RUN
    TCCR0B := TCCR0B_RUN }

/-- The handler `ISR(TIMER1_OVF_vect)`: `timer1E++` on a `uint16_t`. -/
def isrTimer1Ovf (s : State K) : State K :=
  { s with timer1E := (s.timer1E + 1) % 65536 }

/-- The handler `ISR(TIMER0_COMPA_vect)`. -/
def isrTimer0CompA (s : State K) : State K :=
  let s1 := { s with timer1L := s.TCNT1 }
  let s2 := { s1 with timer1H := s1.timer1E }
  if s2.timer0E ≠ 0 then
    let s3 := { s2 with timer0E := s2.timer0E - 1 }
    if s3.timer0E = 0 then
      { s3 with TCCR1B := 0, TCCR0B := 0, measuring := 0 }
    else s3
  else s2

/-- What can happen while `main` sleeps in `while(measuring) sleep_cpu()`:
a timebase tick (the TIMER0_COMPA handler runs), an overflow of the event
counter (the TIMER1_OVF handler runs), or the hardware counters advancing to
new register values. -/
inductive Event where
  | tick
  | overflow
  | hw (tcnt0 tcnt1 : Nat)
  deriving DecidableEq, Repr

/-- Effect of one event on the state. -/
def step (s : State K) : Event → State K
  | Event.tick => isrTimer0CompA s
  | Event.overflow => isrTimer1Ovf s
  | Event.hw tcnt0 tcnt1 => { s with TCNT0 := tcnt0 % 256, TCNT1 := tcnt1 % 65536 }

/-- Effect of a sequence of events, oldest first. -/
def run (s : State K) (evs : List Event) : State K :=
  evs.foldl step s

/-- Number of executions of the TIMER0_COMPA handler in an event sequence. -/
def ticks (evs : List Event) : Nat :=
  evs.count Event.tick

/-! ## Frequency derivation -/

/-- Reduction to the 16-bit signed `int` of the target. -/
def wrapInt (x : Int) : Int := Int.bmod x (2 ^ 16)

/-- Reduction to the 32-bit signed `long` of the target. -/
def wrapLong (x : Int) : Int := Int.bmod x (2 ^ 32)

/-- The factor `(uint16_t)_BV(divider_ctrl[id].shift)`: `1 << shift` in `int`,
converted to `uint16_t`. -/
def prescalerFactor (id : Nat) : Int :=
  wrapInt ((1 <<< (dividerCtrlAt id).shift : Nat) : Int) % 65536

/-- The factor `((65536*timer1H)+timer1L)`: the literal 65536 is a `long`, so
product and sum are taken in `long`. -/
def counterValue (h l : Nat) : Int :=
  wrapLong (wrapLong (65536 * (h : Int)) + (l : Int))

/-- The integer product `(uint16_t)_BV(shift) * ((65536*timer1H)+timer1L)`,
taken in `long`. -/
def integerPart (id h l : Nat) : Int :=
  wrapLong (prescalerFactor id * counterValue h l)

section Field
variable [LinearOrderedField K]

/-- The macro `CALIBRATION`, `((PRECISION)F_CPU_REAL/F_MEASURING)`, that is
`(double)F_CPU*0.998 / ((double)256*OCR0A_START*timer0E_start)` with
`OCR0A_START = 250`.  `F_CPU` comes from the build and is a parameter. -/
def CALIBRATION (F_CPU : K) (timer0E_start : Nat) : K :=
  F_CPU * (998 / 1000) / (256 * 250 * (timer0E_start : K))

/-- The right-hand side of the assignment at lines 321-324 for selector `id`
and holding pair `(h, l)`, with `cal` the value of `CALIBRATION`. -/
def rawFrequency (id h l : Nat) (cal : K) : K :=
  ((integerPart id h l : Int) : K) * cal

/-- The store `last_frequency[last_frequency_counter] = v` followed by
`last_frequency_counter = (last_frequency_counter + 1) & 0x3`. -/
def pushFrequency (s : State K) (v : K) : State K :=
  let s1 := { s with last_frequency := Function.update s.last_frequency s.last_frequency_counter v }
  { s1 with last_frequency_counter := ((s1.last_frequency_counter + 1) &&& 0x3) % 256 }

/-- Lines 321-325 of `main`: compute the raw frequency and push it. -/
def storeFrequency (F_CPU : K) (s : State K) : State K :=
  pushFrequency s
    (rawFrequency s.divider_id s.timer1H s.timer1L (CALIBRATION F_CPU s.timer0E_start))

/-- Effect of pushing a sequence of values, oldest first. -/
def pushAll (s : State K) (vs : List K) : State K :=
  vs.foldl pushFrequency s

/-- The four slots of `last_frequency` read in ring order starting at the write
index: the slot that the next push overwrites comes first. -/
def window (s : State K) : List K :=
  [s.last_frequency (s.last_frequency_counter % 4),
   s.last_frequency ((s.last_frequency_counter + 1) % 4),
   s.last_frequency ((s.last_frequency_counter + 2) % 4),
   s.last_frequency ((s.last_frequency_counter + 3) % 4)]

/-- The arithmetic of the C type `double` that lines 330-333 of `main` use:
the addition and the division of the target and the library function `round`.
They belong to the compiler and the C library, not to the repository, and are
parameters; no law (associativity, exactness) is assumed of them. -/
structure DoubleArith (K : Type) where
  /-- Addition of two `double` values -/
  add : K → K → K
  /-- Division of two `double` values -/
  div : K → K → K
  /-- Library function `round` -/
  round : K → K

/-- Lines 330-333 of `main`: the moving average.  The slots are added in index
order, left to right, as the C expression is parsed; the literal 4 is converted
to `double`. -/
def movingAverage (ops : DoubleArith K) (s : State K) : State K :=
  { s with frequency :=
      (ops.round (ops.div
        (ops.add (ops.add (ops.add (s.last_frequency 0) (s.last_frequency 1))
          (s.last_frequency 2)) (s.last_frequency 3))
        4)) }

variable [FloorRing K]

/-- The function `round` as the C standard defines it on exact values: nearest
integer, halfway cases away from zero. -/
def cRound (x : K) : K :=
  if 0 ≤ x then ((⌊x + 1 / 2⌋ : Int) : K) else ((⌈x - 1 / 2⌉ : Int) : K)

/-- The arithmetic without rounding error: exact sum, exact quotient and
`cRound`.  Used to read the moving average as a rounded mean. -/
def exactArith : DoubleArith K where
  add := fun a b => a + b
  div := fun a b => a / b
  round := cRound

end Field

/-! ## LC derivation -/

/-- The macro `BUTTONA`, `(PINB & _BV(PB4))` with `PB4 = 4`; zero when the
button is pressed. -/
def BUTTONA (pinb : Nat) : Nat := pinb &&& (1 <<< 4)

/-- The macro `BUTTONB`, `(PINB & _BV(PB3))` with `PB3 = 3`; zero when the
button is pressed. -/
def BUTTONB (pinb : Nat) : Nat := pinb &&& (1 <<< 3)

section Field
variable [LinearOrderedField K]

/-- The macro `CAPACITOR`, `1e-9`. -/
def CAPACITOR : K := 1 / 10 ^ 9

/-- Initial value of `inductor`, `102.3e-6`. -/
def INDUCTOR_DEFAULT : K := 1023 / 10 ^ 7

/-- Lines 339-385 of `main` without the LCD traffic: the state afterwards and
the value handed to `dtostre` for display.  `M_PI` is the constant of
`math.h`; `pinb` is the value of `PINB`, taken to be the same at every read
of the buttons within the cycle. -/
def lcMeasure (M_PI : K) (pinb : Nat) (s : State K) : State K × K :=
  if BUTTONA pinb = 0 ∨ BUTTONB pinb = 0 then
    let divider : K := if BUTTONA pinb = 0 then CAPACITOR else s.inductor
    let s1 := { s with frequency := (1 / (2 * M_PI * s.frequency)) ^ 2 / divider }
    let s2 := if BUTTONA pinb = 0 ∧ BUTTONB pinb = 0 then
                { s1 with inductor := s1.frequency } else s1
    let s3 := { s2 with frequency :=
                  s2.frequency - (if BUTTONA pinb = 0 then s2.inductor else CAPACITOR) }
    (s3, if s3.frequency ≥ 0 then s3.frequency else 0)
  else
    ({ s with calibrationMode := 0 }, s.frequency)

/-- The state when `main` enters its loop: zero-initialised globals, the
initialisers of `last_frequency_counter`, `inductor` and `calibrationMode`,
`PORTB = _BV(PB3) | _BV(PB4)`, both timers stopped, `timer0E_start = 312`. -/
def startup : State K where
  divider_id := 0
  PORTB := (1 <<< 3) ||| (1 <<< 4)
  measuring := 0
  last_frequency := fun _ => 0
  last_frequency_counter := 0
  frequency := 0
  inductor := INDUCTOR_DEFAULT
  calibrationMode := 1
  timer1E := 0
  timer0E := 0
  timer0E_start := 312
  timer1L := 0
  timer1H := 0
  TCNT1 := 0
  TCNT0 := 0
  TCCR1B := 0
  TCCR0B := 0

end Field

/-! ## Reachable states -/

section Field
variable [LinearOrderedField K] [FloorRing K]

/-- States the program can be in between two calls: the startup state, closed
under every routine of the measurement engine and every interrupt event. -/
inductive Reachable : State K → Prop where
  | start : Reachable startup
  | setDivider (s : State K) (d : Nat) : d < 8 → Reachable s → Reachable (setDivider s d)
  | selectPrescaler (s : State K) : Reachable s → Reachable (selectPrescaler s)
  | startMeasurement (s : State K) (t : Nat) : Reachable s → Reachable (startMeasurement s t)
  | step (s : State K) (e : Event) : Reachable s → Reachable (step s e)
  | storeFrequency (s : State K) (F_CPU : K) : Reachable s → Reachable (storeFrequency F_CPU s)
  | movingAverage (s : State K) (ops : DoubleArith K) :
      Reachable s → Reachable (movingAverage ops s)
  | lcMeasure (s : State K) (M_PI : K) (pinb : Nat) :
      Reachable s → Reachable (lcMeasure M_PI pinb s).1

end Field

/-! ## Auxiliary lemmas -/

theorem dividerCtrlAt_mask_lt (d : Nat) (hd : d < 8) : (dividerCtrlAt d).mask < 8 := by
  interval_cases d <;> decide

set_option maxRecDepth 100000 in
theorem port_bits_byte :
    ∀ p < 256, ∀ m < 8,
      ((p &&& 0xF8) ||| m) &&& 7 = m ∧ ((p &&& 0xF8) ||| m) &&& 0xF8 = p &&& 0xF8 := by
  decide

theorem and_f8_mod (p : Nat) : p &&& 0xF8 = (p % 256) &&& 0xF8 := by
  have h : (0xF8 : Nat) = 255 &&& 0xF8 := by decide
  have h2 : p &&& 255 = p % 256 := Nat.and_pow_two_sub_one_eq_mod p 8
  calc p &&& 0xF8 = p &&& (255 &&& 0xF8) := by rw [← h]
    _ = (p &&& 255) &&& 0xF8 := by rw [Nat.land_assoc]
    _ = (p % 256) &&& 0xF8 := by rw [h2]

theorem port_bits (p m : Nat) (hm : m < 8) :
    ((p &&& 0xF8) ||| m) &&& 7 = m ∧ ((p &&& 0xF8) ||| m) &&& 0xF8 = p &&& 0xF8 := by
  rw [and_f8_mod p]
  exact port_bits_byte (p % 256) (Nat.mod_lt _ (by decide)) m hm

theorem setDivider_divider_id (s : State K) (d : Nat) : (setDivider s d).divider_id = d := rfl

theorem setDivider_PORTB (s : State K) (d : Nat) :
    (setDivider s d).PORTB = (s.PORTB &&& 0xF8) ||| (dividerCtrlAt d).mask := rfl

theorem setDivider_agrees (s : State K) (d : Nat) (hd : d < 8) :
    (setDivider s d).PORTB &&& 7 = (dividerCtrlAt (setDivider s d).divider_id).mask := by
  rw [setDivider_divider_id, setDivider_PORTB]
  exact (port_bits s.PORTB _ (dividerCtrlAt_mask_lt d hd)).1

theorem selectPrescaler_agrees (s : State K)
    (h : s.PORTB &&& 7 = (dividerCtrlAt s.divider_id).mask) :
    (selectPrescaler s).PORTB &&& 7 = (dividerCtrlAt (selectPrescaler s).divider_id).mask := by
  unfold selectPrescaler
  split_ifs
  · exact setDivider_agrees s 0 (by decide)
  · exact setDivider_agrees s 1 (by decide)
  · exact setDivider_agrees s 2 (by decide)
  · exact setDivider_agrees s 3 (by decide)
  · exact h

theorem step_PORTB (s : State K) (e : Event) :
    (step s e).PORTB = s.PORTB ∧ (step s e).divider_id = s.divider_id := by
  cases e
  · simp only [step, isrTimer0CompA]
    split_ifs <;> exact ⟨rfl, rfl⟩
  · exact ⟨rfl, rfl⟩
  · exact ⟨rfl, rfl⟩

theorem lcMeasure_PORTB [LinearOrderedField K] (M_PI : K) (pinb : Nat) (s : State K) :
    (lcMeasure M_PI pinb s).1.PORTB = s.PORTB ∧
    (lcMeasure M_PI pinb s).1.divider_id = s.divider_id := by
  unfold lcMeasure
  split_ifs <;> exact ⟨rfl, rfl⟩

theorem reachable_agrees [LinearOrderedField K] [FloorRing K] (s : State K)
    (hs : Reachable s) : s.PORTB &&& 7 = (dividerCtrlAt s.divider_id).mask := by
  induction hs with
  | start =>
    show ((1 <<< 3) ||| (1 <<< 4)) &&& 7 = (dividerCtrlAt 0).mask
    decide
  | setDivider s d hd _ _ => exact setDivider_agrees s d hd
  | selectPrescaler s _ ih => exact selectPrescaler_agrees s ih
  | startMeasurement s t _ ih => exact ih
  | step s e _ ih =>
    rw [(step_PORTB s e).1, (step_PORTB s e).2]
    exact ih
  | storeFrequency s F _ ih => exact ih
  | movingAverage s ops _ ih => exact ih
  | lcMeasure s M pinb _ ih =>
    rw [(lcMeasure_PORTB M pinb s).1, (lcMeasure_PORTB M pinb s).2]
    exact ih

theorem autoRange_eq (s : State K) (h l : Nat) :
    autoRange s h l =
      (if h = 0 ∧ l < 15625 then 0
       else if h = 0 ∧ l < 37000 then 1
       else if h ≤ 1 ∧ l < 10635 then 2
       else if h ≤ 2 ∧ l < 22000 then 3
       else 4) := by
  simp only [autoRange, selectPrescaler]
  split_ifs <;> rfl

theorem run_divider_id (evs : List Event) : ∀ t : State K,
    (run t evs).divider_id = t.divider_id := by
  induction evs with
  | nil => intro t; rfl
  | cons e evs ih =>
    intro t
    show (run (step t e) evs).divider_id = t.divider_id
    rw [ih (step t e), (step_PORTB t e).2]

theorem selectPrescaler_divider_id (s : State K) :
    (selectPrescaler s).divider_id =
      (if s.timer1H = 0 ∧ s.timer1L < 15625 then 0
       else if s.timer1H = 0 ∧ s.timer1L < 37000 then 1
       else if s.timer1H ≤ 1 ∧ s.timer1L < 10635 then 2
       else if s.timer1H ≤ 2 ∧ s.timer1L < 22000 then 3
       else s.divider_id) := by
  simp only [selectPrescaler]
  split_ifs <;> rfl

/-! ## Auto-ranging and divider port -/

/-- C1: after `setDivider(4)`, the rough window (whatever happens during it) and
the `if`/`else if` chain of `main`, the selector id is a function of the
snapshot in `(timer1H, timer1L)` alone, and for every snapshot `(h, l)` it is
given by the ordered table with first match wins; the otherwise branch keeps
the ratio active during the rough window, which is 4.  Each of the five
first-match branches is taken exactly when its outcome is selected, and the
outcome is one of 0..4, so every snapshot falls in exactly one branch. -/
theorem autoRange_table (s : State K) (h l : Nat) :
    (∀ evs : List Event,
      (selectPrescaler (run (startMeasurement (setDivider s 4) 3) evs)).divider_id
        = autoRange s (run (startMeasurement (setDivider s 4) 3) evs).timer1H
            (run (startMeasurement (setDivider s 4) 3) evs).timer1L) ∧
    autoRange s h l =
      (if h = 0 ∧ l < 15625 then 0
       else if h = 0 ∧ l < 37000 then 1
       else if h ≤ 1 ∧ l < 10635 then 2
       else if h ≤ 2 ∧ l < 22000 then 3
       else (setDivider s 4).divider_id) ∧
    (setDivider s 4).divider_id = 4 ∧
    autoRange s h l ≤ 4 ∧
    (autoRange s h l = 0 ↔ (h = 0 ∧ l < 15625)) ∧
    (autoRange s h l = 1 ↔ ¬(h = 0 ∧ l < 15625) ∧ (h = 0 ∧ l < 37000)) ∧
    (autoRange s h l = 2 ↔
      ¬(h = 0 ∧ l < 15625) ∧ ¬(h = 0 ∧ l < 37000) ∧ (h ≤ 1 ∧ l < 10635)) ∧
    (autoRange s h l = 3 ↔
      ¬(h = 0 ∧ l < 15625) ∧ ¬(h = 0 ∧ l < 37000) ∧ ¬(h ≤ 1 ∧ l < 10635) ∧
        (h ≤ 2 ∧ l < 22000)) ∧
    (autoRange s h l = 4 ↔
      ¬(h = 0 ∧ l < 15625) ∧ ¬(h = 0 ∧ l < 37000) ∧ ¬(h ≤ 1 ∧ l < 10635) ∧
        ¬(h ≤ 2 ∧ l < 22000)) := by
  refine ⟨?_, ?_⟩
  · intro evs
    rw [selectPrescaler_divider_id, autoRange_eq, run_divider_id]
    rfl
  · rw [autoRange_eq, setDivider_divider_id]
    refine ⟨rfl, rfl, ?_, ?_, ?_, ?_, ?_, ?_⟩ <;> split_ifs <;> simp_all

/-- C7: for every divider in 0..7 and every prior port value, after
`setDivider(divider)` the selector id is `divider`, the low three bits of the
port are the mask of that table row and the upper five bits are those of the
prior value; the startup state agrees as well, and so does every reachable
state. -/
theorem setDivider_invariant [LinearOrderedField K] [FloorRing K]
    (s : State K) (divider : Nat) (hd : divider < 8) :
    (setDivider s divider).divider_id = divider ∧
    (setDivider s divider).PORTB &&& 7 = (dividerCtrlAt divider).mask ∧
    (setDivider s divider).PORTB &&& 0xF8 = s.PORTB &&& 0xF8 ∧
    ((startup : State K).divider_id = 0 ∧ (startup : State K).PORTB &&& 7 = 0) ∧
    (∀ t : State K, Reachable t → t.PORTB &&& 7 = (dividerCtrlAt t.divider_id).mask) := by
  have h0 : ((1 <<< 3) ||| (1 <<< 4)) &&& 7 = 0 := by decide
  refine ⟨rfl, ?_, ?_, ⟨rfl, h0⟩, reachable_agrees⟩
  · exact setDivider_agrees s divider hd
  · rw [setDivider_PORTB]
    exact (port_bits s.PORTB _ (dividerCtrlAt_mask_lt divider hd)).2

/-- Witness for C7: `setDivider(4)` on the startup state. -/
theorem setDivider_invariant_witness :
    4 < 8 ∧
    (setDivider (startup : State ℚ) 4).divider_id = 4 ∧
    (setDivider (startup : State ℚ) 4).PORTB &&& 7 = 3 ∧
    (setDivider (startup : State ℚ) 4).PORTB &&& 0xF8 = 0x18 :=
  ⟨by decide,
   (setDivider_invariant (startup : State ℚ) 4 (by decide)).1,
   (setDivider_invariant (startup : State ℚ) 4 (by decide)).2.1,
   (setDivider_invariant (startup : State ℚ) 4 (by decide)).2.2.1⟩

/-- C9, evaluated on the code: the rough count 40000 (snapshot `(0, 40000)`)
selects id 4 while the larger count 65536 (snapshot `(1, 0)`) selects id 2. -/
theorem autoRange_count_order :
    65536 * 0 + 40000 ≤ 65536 * 1 + 0 ∧
    autoRange (startup : State ℚ) 0 40000 = 4 ∧
    autoRange (startup : State ℚ) 1 0 = 2 := by
  refine ⟨by decide, ?_, ?_⟩ <;> rw [autoRange_eq] <;> decide

/-! ## Measurement window: countdown -/

theorem run_cons (s : State K) (e : Event) (evs : List Event) :
    run s (e :: evs) = run (step s e) evs := rfl

theorem ticks_cons_tick (evs : List Event) : ticks (Event.tick :: evs) = ticks evs + 1 := by
  simp [ticks]

theorem ticks_cons_overflow (evs : List Event) : ticks (Event.overflow :: evs) = ticks evs := by
  simp [ticks]

theorem ticks_cons_hw (a b : Nat) (evs : List Event) :
    ticks (Event.hw a b :: evs) = ticks evs := by
  simp [ticks]

theorem isr_idle (t : State K) (h : t.timer0E = 0) :
    (isrTimer0CompA t).timer0E = 0 ∧ (isrTimer0CompA t).measuring = t.measuring ∧
    (isrTimer0CompA t).TCCR1B = t.TCCR1B ∧ (isrTimer0CompA t).TCCR0B = t.TCCR0B := by
  simp [isrTimer0CompA, h]

theorem isr_last (t : State K) (h : t.timer0E = 1) :
    (isrTimer0CompA t).timer0E = 0 ∧ (isrTimer0CompA t).measuring = 0 ∧
    (isrTimer0CompA t).TCCR1B = 0 ∧ (isrTimer0CompA t).TCCR0B = 0 := by
  simp [isrTimer0CompA, h]

theorem isr_counting (t : State K) (h : 1 < t.timer0E) :
    (isrTimer0CompA t).timer0E = t.timer0E - 1 ∧ (isrTimer0CompA t).measuring = t.measuring ∧
    (isrTimer0CompA t).TCCR1B = t.TCCR1B ∧ (isrTimer0CompA t).TCCR0B = t.TCCR0B := by
  have h1 : t.timer0E ≠ 0 := by omega
  have h2 : t.timer0E - 1 ≠ 0 := by omega
  simp [isrTimer0CompA, h1, h2]

theorem isr_capture (t : State K) :
    (isrTimer0CompA t).timer1L = t.TCNT1 ∧ (isrTimer0CompA t).timer1H = t.timer1E := by
  simp only [isrTimer0CompA]
  split_ifs <;> exact ⟨rfl, rfl⟩

/-- Countdown invariant of a run: the countdown falls by one per tick down to
zero; the flag and both control registers are untouched while the countdown has
not reached zero (or was zero from the start) and are all cleared once it has. -/
theorem run_countdown (evs : List Event) : ∀ t : State K,
    (run t evs).timer0E = t.timer0E - ticks evs ∧
    ((ticks evs < t.timer0E ∨ t.timer0E = 0) →
      (run t evs).measuring = t.measuring ∧ (run t evs).TCCR1B = t.TCCR1B ∧
      (run t evs).TCCR0B = t.TCCR0B) ∧
    ((0 < t.timer0E ∧ t.timer0E ≤ ticks evs) →
      (run t evs).measuring = 0 ∧ (run t evs).TCCR1B = 0 ∧ (run t evs).TCCR0B = 0) := by
  induction evs with
  | nil =>
    intro t
    refine ⟨by simp [run, ticks], fun _ => ⟨rfl, rfl, rfl⟩, ?_⟩
    intro h
    simp [ticks] at h
    omega
  | cons e evs ih =>
    intro t
    rw [run_cons]
    cases e with
    | overflow =>
      rw [ticks_cons_overflow]
      exact ih (step t Event.overflow)
    | hw a b =>
      rw [ticks_cons_hw]
      exact ih (step t (Event.hw a b))
    | tick =>
      rw [ticks_cons_tick]
      obtain ⟨ihA, ihB, ihC⟩ := ih (step t Event.tick)
      have hstep : step t Event.tick = isrTimer0CompA t := rfl
      rw [hstep] at ihA ihB ihC ⊢
      rcases Nat.lt_trichotomy t.timer0E 1 with h0 | h1 | h2
      · have h0 : t.timer0E = 0 := by omega
        obtain ⟨e0, em, e1, e2⟩ := isr_idle t h0
        rw [e0] at ihA ihB
        obtain ⟨q1, q2, q3⟩ := ihB (Or.inr rfl)
        refine ⟨by omega, fun _ => ⟨by rw [q1, em], by rw [q2, e1], by rw [q3, e2]⟩, ?_⟩
        intro h
        omega
      · obtain ⟨e0, em, e1, e2⟩ := isr_last t h1
        rw [e0] at ihA ihB
        obtain ⟨q1, q2, q3⟩ := ihB (Or.inr rfl)
        refine ⟨by omega, ?_, fun _ => ⟨by rw [q1, em], by rw [q2, e1], by rw [q3, e2]⟩⟩
        intro h
        omega
      · obtain ⟨e0, em, e1, e2⟩ := isr_counting t h2
        rw [e0] at ihA ihB ihC
        rw [em, e1, e2] at ihB
        refine ⟨by omega, ?_, ?_⟩
        · intro h
          exact ihB (Or.inl (by omega))
        · intro h
          exact ihC ⟨by omega, by omega⟩

/-- C8: with `timer0E_start = 312` and `time_shift` in 0..3, the countdown
loaded by `startMeasurement` is `312 / 2 ^ time_shift` with no remainder;
`measuring` is 1 after the call and, together with the two control registers,
keeps its value while fewer than that many TIMER0_COMPA handlers have run,
whatever else happens in between; once that many have run, `TCCR1B`, `TCCR0B`
and `measuring` are 0.  Every execution of the handler copies `TCNT1` and
`timer1E` as they were at entry into `timer1L` and `timer1H`. -/
theorem measurement_countdown (s : State K) (time_shift : Nat) (evs : List Event)
    (hstart : s.timer0E_start = 312) (hshift : time_shift < 4) :
    (startMeasurement s time_shift).timer0E = 312 / 2 ^ time_shift ∧
    312 / 2 ^ time_shift * 2 ^ time_shift = 312 ∧
    (startMeasurement s time_shift).measuring = 1 ∧
    (ticks evs < 312 / 2 ^ time_shift →
      (run (startMeasurement s time_shift) evs).measuring = 1 ∧
      (run (startMeasurement s time_shift) evs).TCCR1B = TCCR1B_RUN ∧
      (run (startMeasurement s time_shift) evs).TCCR0B = TCCR0B_RUN ∧
      (run (startMeasurement s time_shift) evs).timer0E = 312 / 2 ^ time_shift - ticks evs) ∧
    (312 / 2 ^ time_shift ≤ ticks evs →
      (run (startMeasurement s time_shift) evs).measuring = 0 ∧
      (run (startMeasurement s time_shift) evs).TCCR1B = 0 ∧
      (run (startMeasurement s time_shift) evs).TCCR0B = 0) ∧
    (∀ t : State K,
      (isrTimer0CompA t).timer1L = t.TCNT1 ∧ (isrTimer0CompA t).timer1H = t.timer1E) := by
  have hN : (startMeasurement s time_shift).timer0E = 312 / 2 ^ time_shift := by
    show s.timer0E_start >>> time_shift = 312 / 2 ^ time_shift
    rw [hstart, Nat.shiftRight_eq_div_pow]
  have hpos : 0 < 312 / 2 ^ time_shift := by
    interval_cases time_shift <;> decide
  obtain ⟨hA, hB, hC⟩ := run_countdown evs (startMeasurement s time_shift)
  rw [hN] at hA hB hC
  refine ⟨hN, ?_, rfl, ?_, ?_, isr_capture⟩
  · interval_cases time_shift <;> decide
  · intro h
    obtain ⟨q1, q2, q3⟩ := hB (Or.inl h)
    exact ⟨q1, q2, q3, hA⟩
  · intro h
    exact hC ⟨hpos, h⟩

/-- Witness for C8: the rough window (`time_shift = 3`) from the startup state
ends with the 39th tick and not with the 38th. -/
theorem measurement_countdown_witness :
    (startup : State ℚ).timer0E_start = 312 ∧ 3 < 4 ∧
    (startMeasurement (startup : State ℚ) 3).timer0E = 39 ∧
    (run (startMeasurement (startup : State ℚ) 3) (List.replicate 38 Event.tick)).measuring = 1 ∧
    (run (startMeasurement (startup : State ℚ) 3) (List.replicate 39 Event.tick)).measuring = 0 :=
  ⟨rfl, by decide,
   (measurement_countdown (startup : State ℚ) 3 [] rfl (by decide)).1,
   ((measurement_countdown (startup : State ℚ) 3 (List.replicate 38 Event.tick) rfl
      (by decide)).2.2.2.1 (by decide)).1,
   ((measurement_countdown (startup : State ℚ) 3 (List.replicate 39 Event.tick) rfl
      (by decide)).2.2.2.2.1 (by decide)).1⟩

/-! ## Frequency derivation: integer part -/

theorem wrapLong_of_fits (x : Int) (h0 : 0 ≤ x) (h1 : x < 2 ^ 31) : wrapLong x = x := by
  simp only [wrapLong, Int.bmod_def]
  norm_num
  omega

theorem prescalerFactor_eq (id : Nat) (hid : id < 8) :
    prescalerFactor id = 2 ^ (dividerCtrlAt id).shift := by
  interval_cases id <;> decide

theorem integerPart_eq (id h l : Nat) (hid : id < 8) :
    integerPart id h l =
      wrapLong (2 ^ (dividerCtrlAt id).shift * (65536 * (h : Int) + (l : Int))) := by
  simp only [integerPart, counterValue, wrapLong, prescalerFactor_eq id hid]
  rw [Int.bmod_add_bmod_congr, Int.mul_bmod_bmod]

theorem integerPart_of_fits (id h l : Nat) (hid : id < 8)
    (hfit : 2 ^ (dividerCtrlAt id).shift * (65536 * h + l) < 2 ^ 31) :
    integerPart id h l = 2 ^ (dividerCtrlAt id).shift * (65536 * (h : Int) + (l : Int)) := by
  rw [integerPart_eq id h l hid]
  apply wrapLong_of_fits
  · positivity
  · exact_mod_cast hfit

section Field
variable [LinearOrderedField K]

theorem rawFrequency_of_fits (id h l : Nat) (cal : K) (hid : id < 8)
    (hfit : 2 ^ (dividerCtrlAt id).shift * (65536 * h + l) < 2 ^ 31) :
    rawFrequency id h l cal = 2 ^ (dividerCtrlAt id).shift * (65536 * (h : K) + (l : K)) * cal := by
  unfold rawFrequency
  rw [integerPart_of_fits id h l hid hfit]
  push_cast
  ring

/-- C2: the value stored into the moving-average slot is the integer product
times the calibration constant, the integer product being
`2 ^ shift * (65536 * h + l)` taken on the target, that is reduced to the signed
32-bit `long`; when that product fits the `long` the stored value is the plain
product.  The snapshot `(0, 10000)` at ratio 0 with calibration constant 1
gives 20000. -/
theorem rawFrequency_formula (s : State K) (F_CPU cal : K) (id h l : Nat) (hid : id < 8) :
    (storeFrequency F_CPU s).last_frequency s.last_frequency_counter =
      rawFrequency s.divider_id s.timer1H s.timer1L (CALIBRATION F_CPU s.timer0E_start) ∧
    rawFrequency id h l cal =
      ((wrapLong (2 ^ (dividerCtrlAt id).shift * (65536 * (h : Int) + (l : Int))) : Int) : K)
        * cal ∧
    (2 ^ (dividerCtrlAt id).shift * (65536 * h + l) < 2 ^ 31 →
      rawFrequency id h l cal
        = 2 ^ (dividerCtrlAt id).shift * (65536 * (h : K) + (l : K)) * cal) ∧
    rawFrequency 0 0 10000 (1 : K) = 20000 := by
  refine ⟨by simp [storeFrequency, pushFrequency], ?_, rawFrequency_of_fits id h l cal hid, ?_⟩
  · unfold rawFrequency
    rw [integerPart_eq id h l hid]
  · rw [rawFrequency_of_fits 0 0 10000 1 (by decide) (by decide)]
    have : (dividerCtrlAt 0).shift = 1 := rfl
    rw [this]
    norm_num

/-- Witness for C2: ratio 0, snapshot `(0, 10000)`, calibration constant 1;
also through the store of `main`, with `F_CPU` chosen so that `CALIBRATION`
is 1. -/
theorem rawFrequency_formula_witness :
    0 < 8 ∧
    rawFrequency 0 0 10000 (1 : ℚ) = 2 ^ 1 * (65536 * (0 : ℚ) + 10000) * 1 ∧
    (storeFrequency (9984000000 / 499 : ℚ)
        { (startup : State ℚ) with timer1L := 10000 }).last_frequency 0
      = rawFrequency 0 0 10000 (CALIBRATION (9984000000 / 499 : ℚ) 312) :=
  ⟨by decide,
   (rawFrequency_formula (startup : State ℚ) 1 1 0 0 10000 (by decide)).2.2.1 (by decide),
   (rawFrequency_formula { (startup : State ℚ) with timer1L := 10000 }
      (9984000000 / 499) 1 0 0 10000 (by decide)).1⟩

/-- C3 as stated fails: at ratio 0 the snapshot `(16384, 0)` with calibration
constant 1 gives a negative raw frequency, and its quotient by the division
factor differs between ratio 0 and ratio 1. -/
theorem rawFrequency_wraps :
    (0 : ℚ) < 1 ∧ 16384 < 65536 ∧
    ¬ (0 ≤ rawFrequency 0 16384 0 (1 : ℚ)) ∧
    rawFrequency 0 16384 0 (1 : ℚ) / 2 ^ (dividerCtrlAt 0).shift ≠
      rawFrequency 1 16384 0 (1 : ℚ) / 2 ^ (dividerCtrlAt 1).shift := by
  have h0 : integerPart 0 16384 0 = -2147483648 := by decide
  have h1 : integerPart 1 16384 0 = 0 := by decide
  have s0 : (dividerCtrlAt 0).shift = 1 := rfl
  have s1 : (dividerCtrlAt 1).shift = 2 := rfl
  refine ⟨by norm_num, by decide, ?_, ?_⟩
  · rw [rawFrequency, h0]
    norm_num
  · rw [rawFrequency, rawFrequency, h0, h1, s0, s1]
    norm_num

/-- C3, amended: for every ratio and snapshot whose product
`2 ^ shift * (65536 * h + l)` fits the signed 32-bit `long`, and a positive
calibration constant, the raw frequency is non-negative and its quotient by the
division factor is `(65536 * h + l) * cal`, the same for every such ratio. -/
theorem rawFrequency_nonneg_linear (id h l : Nat) (cal : K) (hid : id < 8) (hcal : 0 < cal)
    (hfit : 2 ^ (dividerCtrlAt id).shift * (65536 * h + l) < 2 ^ 31) :
    0 ≤ rawFrequency id h l cal ∧
    rawFrequency id h l cal / 2 ^ (dividerCtrlAt id).shift = (65536 * (h : K) + (l : K)) * cal := by
  rw [rawFrequency_of_fits id h l cal hid hfit]
  constructor
  · positivity
  · field_simp
    ring

/-- Witness for the amended C3: ratio 4, snapshot `(152, 38528)` (ten million
events), calibration constant 1. -/
theorem rawFrequency_nonneg_linear_witness :
    4 < 8 ∧ (0 : ℚ) < 1 ∧ 2 ^ (dividerCtrlAt 4).shift * (65536 * 152 + 38528) < 2 ^ 31 ∧
    0 ≤ rawFrequency 4 152 38528 (1 : ℚ) ∧
    rawFrequency 4 152 38528 (1 : ℚ) / 2 ^ (dividerCtrlAt 4).shift
      = (65536 * ((152 : Nat) : ℚ) + ((38528 : Nat) : ℚ)) * 1 :=
  ⟨by decide, by norm_num, by decide,
   (rawFrequency_nonneg_linear 4 152 38528 (1 : ℚ) (by decide) (by norm_num) (by decide)).1,
   (rawFrequency_nonneg_linear 4 152 38528 (1 : ℚ) (by decide) (by norm_num) (by decide)).2⟩

end Field

/-! ## Moving average -/

theorem pushFrequency_counter (s : State K) (v : K) :
    (pushFrequency s v).last_frequency_counter = (s.last_frequency_counter + 1) % 4 := by
  have h := Nat.and_pow_two_sub_one_eq_mod (s.last_frequency_counter + 1) 2
  have h3 : (2 ^ 2 - 1 : Nat) = 0x3 := rfl
  rw [h3] at h
  show ((s.last_frequency_counter + 1) &&& 0x3) % 256 = (s.last_frequency_counter + 1) % 4
  rw [h]
  omega

theorem pushFrequency_eq (s : State K) (v : K) :
    pushFrequency s v =
      { s with
        last_frequency := Function.update s.last_frequency s.last_frequency_counter v
        last_frequency_counter := (s.last_frequency_counter + 1) % 4 } := by
  have h := pushFrequency_counter s v
  simp only [pushFrequency] at h ⊢
  rw [h]

theorem pushFrequency_slots (s : State K) (v : K) :
    (pushFrequency s v).last_frequency
      = Function.update s.last_frequency s.last_frequency_counter v := rfl

theorem update_ring (f : Nat → K) (c : Nat) (hc : c < 4) (v : K) :
    [Function.update f c v ((c + 1) % 4 % 4), Function.update f c v (((c + 1) % 4 + 1) % 4),
     Function.update f c v (((c + 1) % 4 + 2) % 4), Function.update f c v (((c + 1) % 4 + 3) % 4)]
      = [f ((c + 1) % 4), f ((c + 2) % 4), f ((c + 3) % 4), v] := by
  interval_cases c <;> simp [Function.update]

theorem window_push (s : State K) (v : K) (hc : s.last_frequency_counter < 4) :
    window (pushFrequency s v) = (window s).tail ++ [v] := by
  simp only [window, pushFrequency_counter, pushFrequency_slots]
  rw [update_ring s.last_frequency s.last_frequency_counter hc v]
  rfl

theorem pushAll_cons (s : State K) (v : K) (vs : List K) :
    pushAll s (v :: vs) = pushAll (pushFrequency s v) vs := rfl

theorem pushAll_window (vs : List K) : ∀ s : State K, s.last_frequency_counter < 4 →
    (pushAll s vs).last_frequency_counter = (s.last_frequency_counter + vs.length) % 4 ∧
    window (pushAll s vs) = (window s ++ vs).drop vs.length := by
  induction vs with
  | nil =>
    intro s hc
    exact ⟨(Nat.mod_eq_of_lt hc).symm, by simp [pushAll]⟩
  | cons v vs ih =>
    intro s hc
    have hc1 : (pushFrequency s v).last_frequency_counter < 4 := by
      rw [pushFrequency_counter]
      exact Nat.mod_lt _ (by decide)
    obtain ⟨h1, h2⟩ := ih (pushFrequency s v) hc1
    rw [pushAll_cons]
    constructor
    · rw [h1, pushFrequency_counter, List.length_cons]
      omega
    · rw [h2, window_push s v hc]
      simp [window]

theorem ring_slot (f : Nat → K) (c k : Nat) (hc : c < 4) (hk : k < 4) :
    [f (c % 4), f ((c + 1) % 4), f ((c + 2) % 4), f ((c + 3) % 4)][(k + 4 - c) % 4]?
      = some (f k) := by
  interval_cases c <;> interval_cases k <;> rfl

theorem pushAll_startup [LinearOrderedField K] (vs : List K) :
    (pushAll startup vs).last_frequency_counter = vs.length % 4 ∧
    window (pushAll startup vs) = (([0, 0, 0, 0] : List K) ++ vs).drop vs.length := by
  obtain ⟨h1, h2⟩ := pushAll_window vs (startup : State K) (show (0 : Nat) < 4 by decide)
  refine ⟨?_, h2⟩
  rw [h1]
  show (0 + vs.length) % 4 = vs.length % 4
  rw [Nat.zero_add]

theorem pushAll_startup_full [LinearOrderedField K] (vs : List K) (hn : 4 ≤ vs.length) :
    window (pushAll startup vs) = vs.drop (vs.length - 4) := by
  rw [(pushAll_startup vs).2]
  have h := @List.drop_append K ([0, 0, 0, 0] : List K) vs (vs.length - 4)
  have e : ([0, 0, 0, 0] : List K).length + (vs.length - 4) = vs.length := by
    simp only [List.length_cons, List.length_nil]
    omega
  rw [e] at h
  exact h

theorem pushAll_counter_lt [LinearOrderedField K] (vs : List K) :
    (pushAll startup vs).last_frequency_counter < 4 := by
  rw [(pushAll_startup vs).1]
  exact Nat.mod_lt _ (by decide)

/-- After `n ≥ 4` pushes slot `k` holds the value of push number `j`, the one
index among the last four (`n - 4 ≤ j < n`) with `j % 4 = k`. -/
theorem pushAll_slot [LinearOrderedField K] (vs : List K) (hn : 4 ≤ vs.length)
    (k : Nat) (hk : k < 4) :
    ∃ j, vs.length - 4 ≤ j ∧ j < vs.length ∧ j % 4 = k ∧
      vs[j]? = some ((pushAll startup vs).last_frequency k) := by
  have hw := pushAll_startup_full vs hn
  have hc := (pushAll_startup vs).1
  have hs := ring_slot (pushAll startup vs).last_frequency
    (pushAll startup vs).last_frequency_counter k (pushAll_counter_lt vs) hk
  have hw2 : [(pushAll startup vs).last_frequency ((pushAll startup vs).last_frequency_counter % 4),
      (pushAll startup vs).last_frequency (((pushAll startup vs).last_frequency_counter + 1) % 4),
      (pushAll startup vs).last_frequency (((pushAll startup vs).last_frequency_counter + 2) % 4),
      (pushAll startup vs).last_frequency (((pushAll startup vs).last_frequency_counter + 3) % 4)]
      = vs.drop (vs.length - 4) := hw
  rw [hw2, List.getElem?_drop, hc] at hs
  refine ⟨vs.length - 4 + (k + 4 - vs.length % 4) % 4, ?_, ?_, ?_, hs⟩ <;> omega

/-- The four slots after the pushes `v0..v3`. -/
theorem pushAll_four [LinearOrderedField K] (v0 v1 v2 v3 : K) :
    (pushAll startup [v0, v1, v2, v3]).last_frequency 0 = v0 ∧
    (pushAll startup [v0, v1, v2, v3]).last_frequency 1 = v1 ∧
    (pushAll startup [v0, v1, v2, v3]).last_frequency 2 = v2 ∧
    (pushAll startup [v0, v1, v2, v3]).last_frequency 3 = v3 := by
  refine ⟨?_, ?_, ?_, ?_⟩ <;> simp [pushAll, pushFrequency_eq, startup, Function.update]

/-- The four slots after the pushes `v0..v4`: slot 0 has been overwritten. -/
theorem pushAll_five [LinearOrderedField K] (v0 v1 v2 v3 v4 : K) :
    (pushAll startup [v0, v1, v2, v3, v4]).last_frequency 0 = v4 ∧
    (pushAll startup [v0, v1, v2, v3, v4]).last_frequency 1 = v1 ∧
    (pushAll startup [v0, v1, v2, v3, v4]).last_frequency 2 = v2 ∧
    (pushAll startup [v0, v1, v2, v3, v4]).last_frequency 3 = v3 := by
  refine ⟨?_, ?_, ?_, ?_⟩ <;> simp [pushAll, pushFrequency_eq, startup, Function.update]

theorem movingAverage_frequency [LinearOrderedField K] (ops : DoubleArith K) (s : State K) :
    (movingAverage ops s).frequency
      = ops.round (ops.div (ops.add (ops.add (ops.add (s.last_frequency 0)
          (s.last_frequency 1)) (s.last_frequency 2)) (s.last_frequency 3)) 4) := rfl

theorem exact_sum_drop [LinearOrderedField K] (vs : List K) (a0 a1 a2 a3 : K)
    (hn : 4 ≤ vs.length)
    (h0 : ∃ j, vs.length - 4 ≤ j ∧ j < vs.length ∧ j % 4 = 0 ∧ vs[j]? = some a0)
    (h1 : ∃ j, vs.length - 4 ≤ j ∧ j < vs.length ∧ j % 4 = 1 ∧ vs[j]? = some a1)
    (h2 : ∃ j, vs.length - 4 ≤ j ∧ j < vs.length ∧ j % 4 = 2 ∧ vs[j]? = some a2)
    (h3 : ∃ j, vs.length - 4 ≤ j ∧ j < vs.length ∧ j % 4 = 3 ∧ vs[j]? = some a3) :
    a0 + a1 + a2 + a3 = (vs.drop (vs.length - 4)).sum := by
  obtain ⟨w, x, y, z, hd⟩ : ∃ w x y z, vs.drop (vs.length - 4) = [w, x, y, z] := by
    have hl : (vs.drop (vs.length - 4)).length = 4 := by
      rw [List.length_drop]
      omega
    match hm : vs.drop (vs.length - 4), hl with
    | [w, x, y, z], _ => exact ⟨w, x, y, z, rfl⟩
  have key : ∀ j a, vs.length - 4 ≤ j → j < vs.length → vs[j]? = some a →
      [w, x, y, z][j - (vs.length - 4)]? = some a := by
    intro j a hj1 hj2 hj
    rw [← hd, List.getElem?_drop]
    have : vs.length - 4 + (j - (vs.length - 4)) = j := by omega
    rw [this]
    exact hj
  obtain ⟨j0, p0, q0, r0, e0⟩ := h0
  obtain ⟨j1, p1, q1, r1, e1⟩ := h1
  obtain ⟨j2, p2, q2, r2, e2⟩ := h2
  obtain ⟨j3, p3, q3, r3, e3⟩ := h3
  have k0 := key j0 a0 p0 q0 e0
  have k1 := key j1 a1 p1 q1 e1
  have k2 := key j2 a2 p2 q2 e2
  have k3 := key j3 a3 p3 q3 e3
  rw [hd]
  have hr : vs.length % 4 < 4 := Nat.mod_lt _ (by decide)
  generalize hi0 : j0 - (vs.length - 4) = i0 at k0
  generalize hi1 : j1 - (vs.length - 4) = i1 at k1
  generalize hi2 : j2 - (vs.length - 4) = i2 at k2
  generalize hi3 : j3 - (vs.length - 4) = i3 at k3
  have b0 : i0 < 4 := by omega
  have b1 : i1 < 4 := by omega
  have b2 : i2 < 4 := by omega
  have b3 : i3 < 4 := by omega
  have d01 : i0 ≠ i1 := by omega
  have d02 : i0 ≠ i2 := by omega
  have d03 : i0 ≠ i3 := by omega
  have d12 : i1 ≠ i2 := by omega
  have d13 : i1 ≠ i3 := by omega
  have d23 : i2 ≠ i3 := by omega
  interval_cases i0 <;> interval_cases i1 <;> interval_cases i2 <;> interval_cases i3 <;>
    simp at d01 d02 d03 d12 d13 d23 <;>
    simp at k0 k1 k2 k3 <;>
    (obtain rfl := k0; obtain rfl := k1; obtain rfl := k2; obtain rfl := k3; simp; ring)

/-- C4: from the startup state, after the four pushes `v0..v3` the slots hold
`v0, v1, v2, v3` and the computed average is `round` of their sum (added in slot
order in the arithmetic of the target) over 4; after a fifth push `v4` slot 0
holds `v4`, the other slots are unchanged, and the average is taken over
`v4, v1, v2, v3` in that slot order.  After any number `n` of pushes the write
index is `n % 4`, hence in 0..3; for `n ≥ 4` the four slots, read in ring order
from the write index, are the last four pushed values oldest first (so the next
push overwrites the oldest), slot `k` holding the one value among the last four
whose push number is `k` modulo 4, and the average is taken over exactly these
four values.  All of this holds whatever the arithmetic of `double` is; when
sum, quotient and `round` are exact the averages are the rounded means of
`v0..v3`, of `v1..v4` and of the last four pushed values. -/
theorem movingAverage_ring [LinearOrderedField K] [FloorRing K] (ops : DoubleArith K) :
    (∀ v0 v1 v2 v3 : K,
      (movingAverage ops (pushAll startup [v0, v1, v2, v3])).frequency
        = ops.round (ops.div (ops.add (ops.add (ops.add v0 v1) v2) v3) 4)) ∧
    (∀ v0 v1 v2 v3 v4 : K,
      (movingAverage ops (pushAll startup [v0, v1, v2, v3, v4])).frequency
        = ops.round (ops.div (ops.add (ops.add (ops.add v4 v1) v2) v3) 4)) ∧
    (∀ vs : List K,
      (pushAll startup vs).last_frequency_counter = vs.length % 4 ∧
      (pushAll startup vs).last_frequency_counter < 4) ∧
    (∀ vs : List K, 4 ≤ vs.length →
      window (pushAll startup vs) = vs.drop (vs.length - 4) ∧
      ∃ a0 a1 a2 a3 : K,
        (∃ j, vs.length - 4 ≤ j ∧ j < vs.length ∧ j % 4 = 0 ∧ vs[j]? = some a0) ∧
        (∃ j, vs.length - 4 ≤ j ∧ j < vs.length ∧ j % 4 = 1 ∧ vs[j]? = some a1) ∧
        (∃ j, vs.length - 4 ≤ j ∧ j < vs.length ∧ j % 4 = 2 ∧ vs[j]? = some a2) ∧
        (∃ j, vs.length - 4 ≤ j ∧ j < vs.length ∧ j % 4 = 3 ∧ vs[j]? = some a3) ∧
        (movingAverage ops (pushAll startup vs)).frequency
          = ops.round (ops.div (ops.add (ops.add (ops.add a0 a1) a2) a3) 4) ∧
        (movingAverage exactArith (pushAll startup vs)).frequency
          = cRound ((vs.drop (vs.length - 4)).sum / 4)) ∧
    (∀ v0 v1 v2 v3 : K,
      (movingAverage exactArith (pushAll startup [v0, v1, v2, v3])).frequency
        = cRound ((v0 + v1 + v2 + v3) / 4)) ∧
    (∀ v0 v1 v2 v3 v4 : K,
      (movingAverage exactArith (pushAll startup [v0, v1, v2, v3, v4])).frequency
        = cRound ((v1 + v2 + v3 + v4) / 4)) := by
  have h4 : ∀ (o : DoubleArith K) (v0 v1 v2 v3 : K),
      (movingAverage o (pushAll startup [v0, v1, v2, v3])).frequency
        = o.round (o.div (o.add (o.add (o.add v0 v1) v2) v3) 4) := by
    intro o v0 v1 v2 v3
    obtain ⟨e0, e1, e2, e3⟩ := pushAll_four v0 v1 v2 v3
    rw [movingAverage_frequency, e0, e1, e2, e3]
  have h5 : ∀ (o : DoubleArith K) (v0 v1 v2 v3 v4 : K),
      (movingAverage o (pushAll startup [v0, v1, v2, v3, v4])).frequency
        = o.round (o.div (o.add (o.add (o.add v4 v1) v2) v3) 4) := by
    intro o v0 v1 v2 v3 v4
    obtain ⟨e0, e1, e2, e3⟩ := pushAll_five v0 v1 v2 v3 v4
    rw [movingAverage_frequency, e0, e1, e2, e3]
  refine ⟨h4 ops, h5 ops, fun vs => ⟨(pushAll_startup vs).1, pushAll_counter_lt vs⟩, ?_, ?_, ?_⟩
  · intro vs hn
    refine ⟨pushAll_startup_full vs hn, _, _, _, _, pushAll_slot vs hn 0 (by decide),
      pushAll_slot vs hn 1 (by decide), pushAll_slot vs hn 2 (by decide),
      pushAll_slot vs hn 3 (by decide), rfl, ?_⟩
    rw [movingAverage_frequency]
    show cRound (((pushAll startup vs).last_frequency 0 + (pushAll startup vs).last_frequency 1
      + (pushAll startup vs).last_frequency 2 + (pushAll startup vs).last_frequency 3) / 4) = _
    rw [exact_sum_drop vs _ _ _ _ hn (pushAll_slot vs hn 0 (by decide))
      (pushAll_slot vs hn 1 (by decide)) (pushAll_slot vs hn 2 (by decide))
      (pushAll_slot vs hn 3 (by decide))]
  · intro v0 v1 v2 v3
    rw [h4 exactArith]
    rfl
  · intro v0 v1 v2 v3 v4
    rw [h5 exactArith]
    show cRound ((v4 + v1 + v2 + v3) / 4) = cRound ((v1 + v2 + v3 + v4) / 4)
    congr 1
    ring

/-- Witness for C4: five pushes 1, 2, 3, 4, 5 leave the slots holding
2, 3, 4, 5 in ring order; with exact arithmetic the average is
`round(3.5) = 4`. -/
theorem movingAverage_ring_witness :
    4 ≤ ([1, 2, 3, 4, 5] : List ℚ).length ∧
    window (pushAll (startup : State ℚ) [1, 2, 3, 4, 5]) = [2, 3, 4, 5] ∧
    (pushAll (startup : State ℚ) [1, 2, 3, 4, 5]).last_frequency_counter = 1 ∧
    (movingAverage exactArith (pushAll (startup : State ℚ) [1, 2, 3, 4, 5])).frequency = 4 :=
  ⟨by decide,
   ((movingAverage_ring (exactArith : DoubleArith ℚ)).2.2.2.1 [1, 2, 3, 4, 5] (by decide)).1,
   ((movingAverage_ring (exactArith : DoubleArith ℚ)).2.2.1 [1, 2, 3, 4, 5]).1,
   by
    rw [(movingAverage_ring (exactArith : DoubleArith ℚ)).2.1 1 2 3 4 5]
    norm_num [exactArith, cRound]⟩

/-! ## LC derivation -/

section Field
variable [LinearOrderedField K]

theorem raw_lc_eq (M_PI f d : K) : (1 / (2 * M_PI * f)) ^ 2 / d = 1 / ((2 * M_PI * f) ^ 2 * d) := by
  rw [one_div_pow, div_div]

theorem clamp_eq_max (x : K) : (if x ≥ 0 then x else 0) = max 0 x := by
  split_ifs with h
  · exact (max_eq_right h).symm
  · exact (max_eq_left (le_of_lt (not_le.mp h))).symm

theorem clamp_nonneg (x : K) : 0 ≤ (if x ≥ 0 then x else 0) := by
  rw [clamp_eq_max]
  exact le_max_left _ _

/-- C5: with the averaged frequency positive and the buttons constant during
the cycle, the value handed to the display is
`max 0 (1 / ((2 * M_PI * f) ^ 2 * CAPACITOR) - inductor)` when only button A
is pressed and `max 0 (1 / ((2 * M_PI * f) ^ 2 * inductor) - CAPACITOR)` when
only button B is pressed; it is zero whenever the unsubtracted value is below
the constant subtracted, and it is never negative. -/
theorem lcMeasure_display (M_PI : K) (pinb : Nat) (s : State K) (hf : 0 < s.frequency) :
    (BUTTONA pinb = 0 ∧ BUTTONB pinb ≠ 0 →
      (lcMeasure M_PI pinb s).2
        = max 0 (1 / ((2 * M_PI * s.frequency) ^ 2 * CAPACITOR) - s.inductor) ∧
      (1 / ((2 * M_PI * s.frequency) ^ 2 * CAPACITOR) < s.inductor →
        (lcMeasure M_PI pinb s).2 = 0)) ∧
    (BUTTONA pinb ≠ 0 ∧ BUTTONB pinb = 0 →
      (lcMeasure M_PI pinb s).2
        = max 0 (1 / ((2 * M_PI * s.frequency) ^ 2 * s.inductor) - CAPACITOR) ∧
      (1 / ((2 * M_PI * s.frequency) ^ 2 * s.inductor) < CAPACITOR →
        (lcMeasure M_PI pinb s).2 = 0)) ∧
    0 ≤ (lcMeasure M_PI pinb s).2 := by
  refine ⟨?_, ?_, ?_⟩
  · rintro ⟨ha, hb⟩
    have h : (lcMeasure M_PI pinb s).2
        = max 0 (1 / ((2 * M_PI * s.frequency) ^ 2 * CAPACITOR) - s.inductor) := by
      simp only [lcMeasure, ha, hb, true_or, if_true, and_false, if_false]
      rw [clamp_eq_max, raw_lc_eq]
    refine ⟨h, fun hlt => ?_⟩
    rw [h]
    exact max_eq_left (by linarith)
  · rintro ⟨ha, hb⟩
    have h : (lcMeasure M_PI pinb s).2
        = max 0 (1 / ((2 * M_PI * s.frequency) ^ 2 * s.inductor) - CAPACITOR) := by
      simp only [lcMeasure, ha, hb, or_true, if_true, false_and, if_false]
      rw [clamp_eq_max, raw_lc_eq]
    refine ⟨h, fun hlt => ?_⟩
    rw [h]
    exact max_eq_left (by linarith)
  · by_cases ha : BUTTONA pinb = 0 <;> by_cases hb : BUTTONB pinb = 0 <;>
      simp only [lcMeasure, ha, hb, true_or, or_true, or_self, and_self, and_false, false_and,
        if_true, if_false] <;>
      first
        | exact clamp_nonneg _
        | exact le_of_lt hf

/-- Witness for C5: frequency 1000, `M_PI` taken as 355/113, button A only
(`PINB = 0x08`) and button B only (`PINB = 0x10`). -/
theorem lcMeasure_display_witness :
    0 < ({ (startup : State ℚ) with frequency := 1000 }).frequency ∧
    (BUTTONA 0x08 = 0 ∧ BUTTONB 0x08 ≠ 0) ∧ (BUTTONA 0x10 ≠ 0 ∧ BUTTONB 0x10 = 0) ∧
    (lcMeasure (355 / 113) 0x08 { (startup : State ℚ) with frequency := 1000 }).2
      = max 0 (1 / ((2 * (355 / 113) * 1000) ^ 2 * CAPACITOR) - INDUCTOR_DEFAULT) ∧
    (lcMeasure (355 / 113) 0x10 { (startup : State ℚ) with frequency := 1000 }).2
      = max 0 (1 / ((2 * (355 / 113) * 1000) ^ 2 * INDUCTOR_DEFAULT) - CAPACITOR) :=
  ⟨by norm_num, by decide, by decide,
   ((lcMeasure_display (355 / 113) 0x08 { (startup : State ℚ) with frequency := 1000 }
      (by norm_num)).1 (by decide)).1,
   ((lcMeasure_display (355 / 113) 0x10 { (startup : State ℚ) with frequency := 1000 }
      (by norm_num)).2.1 (by decide)).1⟩

/-- C6: with both buttons pressed and averaged frequency `F` (positive or not),
the inductor afterwards is `1 / ((2 * M_PI * F) ^ 2 * CAPACITOR)`, nothing
subtracted; with no button, only A or only B pressed, the inductor is
unchanged. -/
theorem lcMeasure_inductor (M_PI : K) (pinb : Nat) (s : State K) :
    (BUTTONA pinb = 0 ∧ BUTTONB pinb = 0 →
      (lcMeasure M_PI pinb s).1.inductor = 1 / ((2 * M_PI * s.frequency) ^ 2 * CAPACITOR)) ∧
    (BUTTONA pinb ≠ 0 ∧ BUTTONB pinb ≠ 0 → (lcMeasure M_PI pinb s).1.inductor = s.inductor) ∧
    (BUTTONA pinb = 0 ∧ BUTTONB pinb ≠ 0 → (lcMeasure M_PI pinb s).1.inductor = s.inductor) ∧
    (BUTTONA pinb ≠ 0 ∧ BUTTONB pinb = 0 → (lcMeasure M_PI pinb s).1.inductor = s.inductor) := by
  refine ⟨?_, ?_, ?_, ?_⟩
  · rintro ⟨ha, hb⟩
    simp only [lcMeasure, ha, hb, true_or, if_true, and_self]
    rw [raw_lc_eq]
  · rintro ⟨ha, hb⟩
    simp only [lcMeasure, ha, hb, or_self, if_false]
  · rintro ⟨ha, hb⟩
    simp only [lcMeasure, ha, hb, true_or, if_true, and_false, if_false]
  · rintro ⟨ha, hb⟩
    simp only [lcMeasure, ha, hb, or_true, if_true, false_and, if_false]

/-- Witness for C6: frequency 1000, `M_PI` taken as 355/113, both buttons
pressed (`PINB = 0x00`) and none pressed (`PINB = 0x18`). -/
theorem lcMeasure_inductor_witness :
    (BUTTONA 0x00 = 0 ∧ BUTTONB 0x00 = 0) ∧ (BUTTONA 0x18 ≠ 0 ∧ BUTTONB 0x18 ≠ 0) ∧
    (lcMeasure (355 / 113) 0x00 { (startup : State ℚ) with frequency := 1000 }).1.inductor
      = 1 / ((2 * (355 / 113) * 1000) ^ 2 * CAPACITOR) ∧
    (lcMeasure (355 / 113) 0x18 { (startup : State ℚ) with frequency := 1000 }).1.inductor
      = INDUCTOR_DEFAULT :=
  ⟨by decide, by decide,
   (lcMeasure_inductor (355 / 113) 0x00
      { (startup : State ℚ) with frequency := 1000 }).1 (by decide),
   (lcMeasure_inductor (355 / 113) 0x18
      { (startup : State ℚ) with frequency := 1000 }).2.1 (by decide)⟩

/-- C10: with both buttons pressed, for every averaged frequency, the value
handed to the display is exactly zero: the derived inductance is stored
into `inductor` and that same `inductor` is then subtracted from it. -/
theorem lcMeasure_selfcal_display (M_PI : K) (pinb : Nat) (s : State K)
    (ha : BUTTONA pinb = 0) (hb : BUTTONB pinb = 0) :
    (lcMeasure M_PI pinb s).2 = 0 ∧
    (lcMeasure M_PI pinb s).1.frequency = 0 ∧
    (lcMeasure M_PI pinb s).1.inductor = (1 / (2 * M_PI * s.frequency)) ^ 2 / CAPACITOR := by
  simp [lcMeasure, ha, hb]

/-- Witness for C10: frequency 1000, `M_PI` taken as 355/113, both buttons
pressed (`PINB = 0x00`). -/
theorem lcMeasure_selfcal_display_witness :
    BUTTONA 0x00 = 0 ∧ BUTTONB 0x00 = 0 ∧
    (lcMeasure (355 / 113) 0x00 { (startup : State ℚ) with frequency := 1000 }).2 = 0 :=
  ⟨by decide, by decide,
   (lcMeasure_selfcal_display (355 / 113) 0x00 { (startup : State ℚ) with frequency := 1000 }
      (by decide) (by decide)).1⟩

end Field

end FrequencyCounter
